import Mathlib
/-!
Verification development for the easyspc statistical process control library.

The definitions below shallowly embed the Python source:
  * `batched` — `easyspc/chart.py`, `batched` (lines 19–24)
  * `abc_table` — `easyspc/const.py`, the anti-bias constant lookup table
  * `XBarR`, `IMR`, `P` — `easyspc/chart.py` chart calculators
  * `WECO` rules — `easyspc/rules.py`

Numeric values are modelled with `ℚ` (exact arithmetic); Python `float`
literals in the source are decimal and map to exact rationals.
-/
namespace EasySPC

/-- Model of `statistics.mean`: sum divided by length.  Python raises
`StatisticsError` on empty input; this total function returns `0` there,
and every theorem below that uses `mean` supplies nonemptiness. -/
def mean (l : List ℚ) : ℚ := l.sum / l.length

/-- Python `max` over a nonempty sequence (`max(v)` in `chart.py`).
Python raises on the empty sequence; junk value `0` there. -/
def listMax : List ℚ → ℚ
  | [] => 0
  | x :: xs => xs.foldl max x

/-- Python `min` over a nonempty sequence (`min(v)` in `chart.py`). -/
def listMin : List ℚ → ℚ
  | [] => 0
  | x :: xs => xs.foldl min x

/-- Source `chart.py` lines 19–24: `batched(iterable, n)` repeatedly takes a tuple
of the next `n` items (`islice`) and yields it while it is nonempty.
Note there is no `n < 1` guard in this variant: for `n = 0` the first
batch is empty and the generator stops at once, yielding nothing. -/
def batched (l : List α) (n : ℕ) : List (List α) :=
  match hb : l.take n with
  | [] => []
  | b :: bs => (b :: bs) :: batched (l.drop n) n
termination_by l.length
decreasing_by
  have h1 : l.take n ≠ [] := by rw [hb]; exact List.cons_ne_nil _ _
  simp only [ne_eq, List.take_eq_nil_iff, not_or] at h1
  have h2 : 0 < l.length := List.length_pos.mpr h1.2
  simp only [List.length_drop]
  omega

/-- Source `const.py` line 12: the namedtuple field names of an anti-bias
constant row — exactly these seven; there is no `C4` column. -/
def field_names : List String := ["A2", "A3", "d2", "D3", "D4", "B3", "B4"]

/-- An anti-bias constant row (`const.py` `abc` namedtuple). -/
structure abc where
  A2 : ℚ
  A3 : ℚ
  d2 : ℚ
  D3 : ℚ
  D4 : ℚ
  B3 : ℚ
  B4 : ℚ

/-- Source `const.py` lines 16–41: the anti-bias constant look-up table, a dict
keyed by subgroup size `2..25`; lookup of any other key raises `KeyError`,
modelled as `none`. -/
def abc_table (k : ℤ) : Option abc :=
  if k = 2 then some ⟨1.880, 2.659, 1.128, 0.000, 3.267, 0.000, 3.267⟩
  else if k = 3 then some ⟨1.023, 1.954, 1.693, 0.000, 2.574, 0.000, 2.568⟩
  else if k = 4 then some ⟨0.729, 1.628, 2.059, 0.000, 2.282, 0.000, 2.266⟩
  else if k = 5 then some ⟨0.577, 1.427, 2.326, 0.000, 2.114, 0.000, 2.089⟩
  else if k = 6 then some ⟨0.483, 1.287, 2.534, 0.000, 2.004, 0.030, 1.970⟩
  else if k = 7 then some ⟨0.419, 1.182, 2.704, 0.076, 1.924, 0.118, 1.882⟩
  else if k = 8 then some ⟨0.373, 1.099, 2.847, 0.136, 1.864, 0.185, 1.815⟩
  else if k = 9 then some ⟨0.337, 1.032, 2.970, 0.184, 1.816, 0.239, 1.761⟩
  else if k = 10 then some ⟨0.308, 0.975, 3.078, 0.223, 1.777, 0.284, 1.716⟩
  else if k = 11 then some ⟨0.285, 0.927, 3.173, 0.256, 1.744, 0.321, 1.679⟩
  else if k = 12 then some ⟨0.266, 0.886, 3.258, 0.283, 1.717, 0.354, 1.646⟩
  else if k = 13 then some ⟨0.249, 0.850, 3.336, 0.307, 1.693, 0.382, 1.618⟩
  else if k = 14 then some ⟨0.235, 0.817, 3.407, 0.328, 1.672, 0.406, 1.594⟩
  else if k = 15 then some ⟨0.223, 0.789, 3.472, 0.347, 1.653, 0.428, 1.572⟩
  else if k = 16 then some ⟨0.212, 0.763, 3.532, 0.363, 1.637, 0.448, 1.552⟩
  else if k = 17 then some ⟨0.203, 0.739, 3.588, 0.378, 1.622, 0.466, 1.534⟩
  else if k = 18 then some ⟨0.194, 0.718, 3.640, 0.391, 1.608, 0.482, 1.518⟩
  else if k = 19 then some ⟨0.187, 0.698, 3.689, 0.403, 1.597, 0.497, 1.503⟩
  else if k = 20 then some ⟨0.180, 0.680, 3.735, 0.415, 1.585, 0.510, 1.490⟩
  else if k = 21 then some ⟨0.173, 0.663, 3.778, 0.425, 1.575, 0.523, 1.477⟩
  else if k = 22 then some ⟨0.167, 0.647, 3.819, 0.434, 1.566, 0.534, 1.466⟩
  else if k = 23 then some ⟨0.162, 0.633, 3.858, 0.443, 1.557, 0.545, 1.455⟩
  else if k = 24 then some ⟨0.157, 0.619, 3.895, 0.451, 1.548, 0.555, 1.445⟩
  else if k = 25 then some ⟨0.153, 0.606, 3.931, 0.459, 1.541, 0.565, 1.435⟩
  else none

/-- The range `max(v) - min(v)` of a subgroup (`chart.py` line 47). -/
def rangeOf (v : List ℚ) : ℚ := listMax v - listMin v

/-- Source `XBarR.__init__` (`chart.py` lines 39–47): batch the data by the
subgroup size, then per subgroup record the mean and the range. -/
structure XBarR where
  subgroup_size : ℕ
  x_bar : List ℚ
  r : List ℚ

def XBarR.make (data : List ℚ) (subgroup_size : ℕ) : XBarR :=
  let groups := batched data subgroup_size
  { subgroup_size := subgroup_size
    x_bar := groups.map mean
    r := groups.map rangeOf }

def XBarR.center_line_x (c : XBarR) : ℚ := mean c.x_bar

def XBarR.center_line_r (c : XBarR) : ℚ := mean c.r

def XBarR.lower_control_limit_x (c : XBarR) : Option ℚ :=
  (abc_table (c.subgroup_size : ℤ)).map
    (fun t => c.center_line_x - t.A2 * c.center_line_r)

def XBarR.upper_control_limit_x (c : XBarR) : Option ℚ :=
  (abc_table (c.subgroup_size : ℤ)).map
    (fun t => c.center_line_x + t.A2 * c.center_line_r)

def XBarR.lower_control_limit_r (c : XBarR) : Option ℚ :=
  (abc_table (c.subgroup_size : ℤ)).map (fun t => t.D3 * c.center_line_r)

def XBarR.upper_control_limit_r (c : XBarR) : Option ℚ :=
  (abc_table (c.subgroup_size : ℤ)).map (fun t => t.D4 * c.center_line_r)

/-- Source `IMR.__init__` (`chart.py` lines 256–259): keep the raw series and the
moving ranges `|x[i] - x[i-1]|` for `i` in `range(1, len(data))`. -/
structure IMR where
  i : List ℚ
  mr : List ℚ

def IMR.make (data : List ℚ) : IMR :=
  { i := data
    mr := (List.range' 1 (data.length - 1)).map
      (fun j => |data.getD j 0 - data.getD (j - 1) 0|) }

def IMR.center_line_i (c : IMR) : ℚ := mean c.i

def IMR.center_line_mr (c : IMR) : ℚ := mean c.mr

/-- Source `chart.py` lines 277–282: `CL_mr - 3·CL_i / d2` with `d2` taken from
the `k = 2` row of the table. -/
def IMR.lower_control_limit_mr (c : IMR) : Option ℚ :=
  (abc_table 2).map (fun t => c.center_line_mr - 3 * c.center_line_i / t.d2)

/-- Source `chart.py` lines 284–289: `CL_mr + 3·CL_i / d2`. -/
def IMR.upper_control_limit_mr (c : IMR) : Option ℚ :=
  (abc_table 2).map (fun t => c.center_line_mr + 3 * c.center_line_i / t.d2)

/-- State of the `rules.py` `WECO` evaluator in its scalar configuration:
`center` and `sigma` set at construction (`RulesBase.__init__`). -/
structure WECO where
  center : ℚ
  sigma : ℚ

/-- Source `rules.py` lines 86–98, `rule_1`: any point beyond `center ± 3σ`. -/
def WECO.rule_1 (w : WECO) (x : List ℚ) : Bool :=
  let ll := w.center - 3 * w.sigma
  let lu := w.center + 3 * w.sigma
  x.any (fun d => decide (d < ll) || decide (d > lu))

/-- Source `rules.py` lines 100–116, `rule_2`: for `i in range(1, len(x))` the
window `x[i-1:i+1]` (2 points); true when both lie below `center - 2σ` or
both above `center + 2σ`. -/
def WECO.rule_2 (w : WECO) (x : List ℚ) : Bool :=
  let ll := w.center - 2 * w.sigma
  let lu := w.center + 2 * w.sigma
  (List.range x.length).any (fun i =>
    decide (1 ≤ i) &&
      (let sub := (x.drop (i - 1)).take 2
       (sub.countP (fun d => decide (d < ll)) == 2 ||
        sub.countP (fun d => decide (d > lu)) == 2)))

/-- Source `rules.py` lines 118–134, `rule_3`: for `i in range(3, len(x))` the
window `x[i-3:i+1]` (4 points); true when all four lie beyond `center ± σ`
on the same side. -/
def WECO.rule_3 (w : WECO) (x : List ℚ) : Bool :=
  let ll := w.center - 1 * w.sigma
  let lu := w.center + 1 * w.sigma
  (List.range x.length).any (fun i =>
    decide (3 ≤ i) &&
      (let sub := (x.drop (i - 3)).take 4
       (sub.countP (fun d => decide (d < ll)) == 4 ||
        sub.countP (fun d => decide (d > lu)) == 4)))

/-- Source `rules.py` lines 136–151, `rule_4`: for `i in range(7, len(x))` the
window `x[i-7:i+1]` (8 points); true when all eight are strictly below, or
all eight strictly above, `center`.  `sigma` is not consulted. -/
def WECO.rule_4 (w : WECO) (x : List ℚ) : Bool :=
  (List.range x.length).any (fun i =>
    decide (7 ≤ i) &&
      (let sub := (x.drop (i - 7)).take 8
       (sub.all (fun d => decide (d < w.center)) ||
        sub.all (fun d => decide (d > w.center)))))

/-- P-chart sample sizes: one shared scalar, or a per-point list
(`chart.py` `P`, `sample_sizes: list | int`). -/
inductive Sizes where
  | scalar : ℚ → Sizes
  | perPoint : List ℚ → Sizes

structure PChart where
  defects : List ℚ
  sample_sizes : Sizes

/-- Source `chart.py` lines 351–358, `P.p` (reading the class body with its
intended indentation): per-point proportions.  With a per-point list the
code zips `defects` with `sample_sizes`, so unequal lengths silently
truncate to the shorter — no `ShapeMismatch` is raised anywhere. -/
def PChart.p (c : PChart) : List ℚ :=
  match c.sample_sizes with
  | .perPoint ns => (c.defects.zip ns).map (fun v => v.1 / v.2)
  | .scalar n => c.defects.map (fun v => v / n)

def PChart.center_line (c : PChart) : ℚ := mean c.p

/-- Source `chart.py` lines 364–374, `P.upper_control_limit`.  `center_line`
comes from `statistics.mean` and is always a scalar, so the
`isinstance(p_bar, list)` branch is dead; the live branch runs
`list(map(func, self.sample_sizes))`, which for a scalar sample size
iterates over an `int` and raises `TypeError` (modelled `none`).  The
square root `** 0.5` leaves `ℚ`, so it is supplied as a parameter; the
theorems below hold for every choice of `sqrtF`. -/
def PChart.upper_control_limit (sqrtF : ℚ → ℚ) (c : PChart) : Option (List ℚ) :=
  let p_bar := c.center_line
  match c.sample_sizes with
  | .scalar _ => none
  | .perPoint ns =>
      some (ns.map (fun n => p_bar + 3 * sqrtF (p_bar * (1 - p_bar)) / sqrtF n))

/-- Source `chart.py` lines 376–386, `P.lower_control_limit`, same structure. -/
def PChart.lower_control_limit (sqrtF : ℚ → ℚ) (c : PChart) : Option (List ℚ) :=
  let p_bar := c.center_line
  match c.sample_sizes with
  | .scalar _ => none
  | .perPoint ns =>
      some (ns.map (fun n => p_bar - 3 * sqrtF (p_bar * (1 - p_bar)) / sqrtF n))

/-- A dynamically typed Python value: a float or a list of floats.  Used
to model expressions whose operands mix the two. -/
inductive PyVal where
  | num : ℚ → PyVal
  | lst : List ℚ → PyVal

/-- Python binary `-`: defined on two numbers; a `TypeError` (modelled
`none`) when either operand is a list of floats. -/
def pySub : PyVal → PyVal → Option ℚ
  | .num a, .num b => some (a - b)
  | _, _ => none

/-- Attribute access on an `abc` row by name, as Python `getattr` on the
namedtuple: defined exactly for the names in `field_names`,
`AttributeError` (modelled `none`) otherwise. -/
def abc.attr (t : abc) : String → Option ℚ
  | "A2" => some t.A2
  | "A3" => some t.A3
  | "d2" => some t.d2
  | "D3" => some t.D3
  | "D4" => some t.D4
  | "B3" => some t.B3
  | "B4" => some t.B4
  | _ => none

/-- Source `XBarR.cpk` (`chart.py` lines 84–91), step for step: the source
computes `cpk_upper = (usl - self.x_bar) / (3 * sigma)` where
`self.x_bar` is the *list* of subgroup means, so the subtraction mixes a
float and a list and raises `TypeError`. -/
def XBarR.cpk (c : XBarR) (lsl usl : ℚ) : Option ℚ := do
  let t ← abc_table (c.subgroup_size : ℤ)
  let sigma := c.center_line_r / t.d2
  let cpk_upper ← pySub (.num usl) (.lst c.x_bar)
  let cpk_lower ← pySub (.lst c.x_bar) (.num lsl)
  pure (min (cpk_upper / (3 * sigma)) (cpk_lower / (3 * sigma)))

/-- Source `XBarS.__init__` (`chart.py` lines 147–155).  The per-subgroup sample
standard deviation (`statistics.stdev`) involves a square root, which
leaves `ℚ`; it is supplied as a parameter `stdevF`, and the theorems below
hold for every choice of it. -/
structure XBarS where
  subgroup_size : ℕ
  x_bar : List ℚ
  s : List ℚ

def XBarS.make (stdevF : List ℚ → ℚ) (data : List ℚ) (subgroup_size : ℕ) :
    XBarS :=
  let groups := batched data subgroup_size
  { subgroup_size := subgroup_size
    x_bar := groups.map mean
    s := groups.map stdevF }

def XBarS.center_line_s (c : XBarS) : ℚ := mean c.s

/-- Source `XBarS.cpk` (`chart.py` lines 192–199): reads
`abc_table[self.subgroup_size].C4`, but the namedtuple has no `C4` field
(`field_names`), so the attribute access raises `AttributeError` before
anything else; the list subtraction of `XBarR.cpk` would follow. -/
def XBarS.cpk (c : XBarS) (lsl usl : ℚ) : Option ℚ := do
  let t ← abc_table (c.subgroup_size : ℤ)
  let C4val ← t.attr "C4"
  let sigma := c.center_line_s / C4val
  let cpk_upper ← pySub (.num usl) (.lst c.x_bar)
  let cpk_lower ← pySub (.lst c.x_bar) (.num lsl)
  pure (min (cpk_upper / (3 * sigma)) (cpk_lower / (3 * sigma)))

/-- Source `base.py` lines 13–24, the draft `batched` variant: raises
`ValueError("n is less than 1")` when `n < 1`, then loops as the
`chart.py` variant.  (Its body references `islice`, which `base.py` never
imports — irrelevant here since only the guard is at issue.) -/
def base_batched (l : List ℚ) (n : ℤ) : Except String (List (List ℚ)) :=
  if n < 1 then .error "n is less than 1"
  else .ok (batched l n.toNat)

theorem batched_nil (n : ℕ) : batched ([] : List α) n = [] := by
  rw [batched.eq_def]
  split
  · rfl
  · rename_i b bs heq
    simp at heq

theorem batched_zero (l : List α) : batched l 0 = [] := by
  rw [batched.eq_def]
  split
  · rfl
  · rename_i b bs heq
    simp at heq

theorem batched_cons (l : List α) (n : ℕ) (hn : 1 ≤ n) (hl : l ≠ []) :
    batched l n = l.take n :: batched (l.drop n) n := by
  have h1 : l.take n ≠ [] := by
    simp only [ne_eq, List.take_eq_nil_iff, not_or]
    exact ⟨by omega, hl⟩
  rw [batched.eq_def]
  split
  · rename_i heq
    exact absurd heq h1
  · rename_i b bs heq
    rw [heq]

theorem batched_eq_nil (l : List α) (n : ℕ) (h : l.take n = []) :
    batched l n = [] := by
  rw [batched.eq_def]
  split
  · rfl
  · rename_i b bs heq
    rw [h] at heq
    simp at heq

theorem batched_ne_nil (l : List α) (n : ℕ) (hn : 1 ≤ n) (hl : l ≠ []) :
    batched l n ≠ [] := by
  rw [batched_cons l n hn hl]
  exact List.cons_ne_nil _ _

/-- Concatenating the batches reproduces the input. -/
theorem batched_join (l : List α) (n : ℕ) (hn : 1 ≤ n) :
    (batched l n).flatten = l := by
  induction l, n using batched.induct with
  | case1 l n h =>
      rw [batched_eq_nil l n h]
      rw [List.take_eq_nil_iff] at h
      rcases h with h | h
      · omega
      · rw [h]
        rfl
  | case2 l n b bs h ih =>
      have hl : l ≠ [] := by
        intro he
        rw [he] at h
        simp at h
      rw [batched_cons l n hn hl, List.flatten_cons, ih hn]
      exact List.take_append_drop n l

/-- The number of batches is `⌈length / n⌉`. -/
theorem batched_length (l : List α) (n : ℕ) (hn : 1 ≤ n) :
    (batched l n).length = (l.length + n - 1) / n := by
  induction l, n using batched.induct with
  | case1 l n h =>
      rw [batched_eq_nil l n h]
      rw [List.take_eq_nil_iff] at h
      rcases h with h | h
      · omega
      · rw [h]
        simp only [List.length_nil, Nat.zero_add]
        rw [Nat.div_eq_of_lt (by omega)]
  | case2 l n b bs h ih =>
      have hl : l ≠ [] := by
        intro he
        rw [he] at h
        simp at h
      have hm : 1 ≤ l.length := List.length_pos.mpr hl
      rw [batched_cons l n hn hl, List.length_cons, ih hn, List.length_drop]
      have key : l.length + n - 1 = (l.length - 1) + n := by omega
      rw [key, Nat.add_div_right _ (by omega)]
      rcases Nat.lt_or_ge l.length n with hc | hc
      · have h1 : l.length - n = 0 := by omega
        rw [h1]
        simp only [Nat.zero_add]
        rw [Nat.div_eq_of_lt (by omega), Nat.div_eq_of_lt (by omega)]
      · have h2 : l.length - n + n - 1 = l.length - 1 := by omega
        rw [h2]

/-- Every batch except possibly the last has length exactly `n`. -/
theorem batched_dropLast_length (l : List α) (n : ℕ) (hn : 1 ≤ n) :
    ∀ sub ∈ (batched l n).dropLast, sub.length = n := by
  induction l, n using batched.induct with
  | case1 l n h =>
      rw [batched_eq_nil l n h]
      intro sub hsub
      simp at hsub
  | case2 l n b bs h ih =>
      have hl : l ≠ [] := by
        intro he
        rw [he] at h
        simp at h
      rw [batched_cons l n hn hl]
      intro sub hsub
      rcases hrest : batched (l.drop n) n with _ | ⟨r, rs⟩
      · rw [hrest] at hsub
        simp at hsub
      · rw [hrest] at hsub
        rw [List.dropLast_cons₂] at hsub
        rcases List.mem_cons.mp hsub with hsub | hsub
        · subst hsub
          have hd : l.drop n ≠ [] := by
            intro he
            rw [he, batched_nil] at hrest
            exact absurd hrest.symm (List.cons_ne_nil r rs)
          have hlen : n < l.length := by
            have := List.length_pos.mpr hd
            rw [List.length_drop] at this
            omega
          rw [List.length_take]
          omega
        · have := ih hn sub
          rw [hrest] at this
          exact this hsub

/-- The last batch has length `len mod n`, or `n` when `n` divides `len`. -/
theorem batched_getLast_length (l : List α) (n : ℕ) (hn : 1 ≤ n) (hl : l ≠ []) :
    ((batched l n).getLast?).map List.length =
      some (if l.length % n = 0 then n else l.length % n) := by
  induction l, n using batched.induct with
  | case1 l n h =>
      rw [List.take_eq_nil_iff] at h
      rcases h with h | h
      · omega
      · exact absurd h hl
  | case2 l n b bs h ih =>
      rw [batched_cons l n hn hl]
      rcases hrest : batched (l.drop n) n with _ | ⟨r, rs⟩
      · have hd : l.length ≤ n := by
          by_contra hc
          have hdrop : l.drop n ≠ [] := by
            intro he
            have := congrArg List.length he
            rw [List.length_drop] at this
            simp at this
            omega
          exact batched_ne_nil (l.drop n) n hn hdrop hrest
        simp only [List.getLast?_singleton, Option.map_some']
        rw [List.length_take]
        have hm : 1 ≤ l.length := List.length_pos.mpr hl
        rcases Nat.lt_or_ge l.length n with hc | hc
        · rw [if_neg]
          · rw [Nat.mod_eq_of_lt hc, Nat.min_def, if_neg (by omega)]
          · rw [Nat.mod_eq_of_lt hc]
            omega
        · have he : l.length = n := by omega
          rw [he]
          simp

      · have hd : l.drop n ≠ [] := by
          intro he
          rw [he, batched_nil] at hrest
          exact absurd hrest.symm (List.cons_ne_nil r rs)
        have hlen : n < l.length := by
          have := List.length_pos.mpr hd
          rw [List.length_drop] at this
          omega
        have hmod : l.length % n = (l.length - n) % n := by
          have hsplit : l.length = (l.length - n) + n := by omega
          conv_lhs => rw [hsplit]
          rw [Nat.add_mod_right]
        rw [List.getLast?_cons_cons]
        have hlast := ih hn hd
        rw [hrest, List.length_drop] at hlast
        rw [hlast, hmod]

theorem abc_table_none (k : ℤ) (hk : k < 2 ∨ 25 < k) : abc_table k = none := by
  unfold abc_table
  repeat rw [if_neg (by omega)]

theorem foldl_min_le_foldl_max (xs : List ℚ) :
    ∀ a b : ℚ, b ≤ a → xs.foldl min b ≤ xs.foldl max a := by
  induction xs with
  | nil => intro a b hba; exact hba
  | cons x xs ih =>
      intro a b hba
      exact ih _ _ (le_trans (min_le_left b x) (le_trans hba (le_max_left a x)))

theorem rangeOf_nonneg (v : List ℚ) : 0 ≤ rangeOf v := by
  rcases v with _ | ⟨x, xs⟩
  · simp [rangeOf, listMax, listMin]
  · exact sub_nonneg.mpr (foldl_min_le_foldl_max xs x x le_rfl)

theorem mean_nonneg (l : List ℚ) (h : ∀ a ∈ l, 0 ≤ a) : 0 ≤ mean l := by
  have hs : 0 ≤ l.sum := List.sum_nonneg h
  have hl : (0 : ℚ) ≤ (l.length : ℚ) := by positivity
  exact div_nonneg hs hl

/-- For every in-range key the table yields a row whose mean-range and
range-limit factors satisfy `0 ≤ A2`, `0 ≤ D3 ≤ 1 ≤ D4`. -/
theorem abc_constants_ok (k : ℤ) (h2 : 2 ≤ k) (h25 : k ≤ 25) :
    ∃ t, abc_table k = some t ∧
      0 ≤ t.A2 ∧ 0 ≤ t.D3 ∧ t.D3 ≤ 1 ∧ 1 ≤ t.D4 := by
  interval_cases k <;>
    exact ⟨_, rfl, by norm_num, by norm_num, by norm_num, by norm_num⟩

/-- C2: for every series and subgroup size `k ≥ 1` the partitioner yields
`⌈n/k⌉` subgroups whose in-order concatenation reconstructs the series;
every subgroup but possibly the last has length exactly `k`, the last has
length `n mod k` (or `k` when `n mod k = 0`), and zero subgroups are
produced exactly for the empty series. -/
theorem batched_partition_spec (l : List ℚ) (k : ℕ) (hk : 1 ≤ k) :
    (batched l k).length = (l.length + k - 1) / k ∧
    (batched l k).flatten = l ∧
    (∀ sub ∈ (batched l k).dropLast, sub.length = k) ∧
    (l ≠ [] → ((batched l k).getLast?).map List.length =
      some (if l.length % k = 0 then k else l.length % k)) ∧
    (batched l k = [] ↔ l = []) := by
  refine ⟨batched_length l k hk, batched_join l k hk,
    batched_dropLast_length l k hk,
    fun hl => batched_getLast_length l k hk hl, ?_, ?_⟩
  · intro h
    by_contra hl
    exact batched_ne_nil l k hk hl h
  · intro h
    rw [h]
    exact batched_nil k

theorem batched_partition_spec_witness :
    (batched ([1, 2, 3, 4, 5] : List ℚ) 2).length = 3 ∧
    (batched ([1, 2, 3, 4, 5] : List ℚ) 2).flatten = [1, 2, 3, 4, 5] ∧
    ((batched ([1, 2, 3, 4, 5] : List ℚ) 2).getLast?).map List.length =
      some 1 := by
  have h := batched_partition_spec [1, 2, 3, 4, 5] 2 (by norm_num)
  refine ⟨?_, h.2.1, ?_⟩
  · rw [h.1]
    norm_num
  · rw [h.2.2.2.1 (by simp)]
    norm_num

/-- C1: for every observation series and subgroup size `k ∈ [2,25]` that
yields at least one subgroup, `XBarR`'s center lines are the means of the
per-subgroup means and ranges, the mean-track limits are
`CL_x ± A2·CL_R`, and the range-track limits are `D4·CL_R` and `D3·CL_R`
with the constants taken from the table row for `k`. -/
theorem XBarR_limits_spec (data : List ℚ) (k : ℕ) (hk2 : 2 ≤ k)
    (hk25 : k ≤ 25) (_hne : batched data k ≠ []) :
    ∃ t, abc_table (k : ℤ) = some t ∧
      (XBarR.make data k).center_line_x = mean ((batched data k).map mean) ∧
      (XBarR.make data k).center_line_r = mean ((batched data k).map rangeOf) ∧
      (XBarR.make data k).upper_control_limit_x =
        some ((XBarR.make data k).center_line_x +
          t.A2 * (XBarR.make data k).center_line_r) ∧
      (XBarR.make data k).lower_control_limit_x =
        some ((XBarR.make data k).center_line_x -
          t.A2 * (XBarR.make data k).center_line_r) ∧
      (XBarR.make data k).upper_control_limit_r =
        some (t.D4 * (XBarR.make data k).center_line_r) ∧
      (XBarR.make data k).lower_control_limit_r =
        some (t.D3 * (XBarR.make data k).center_line_r) := by
  obtain ⟨t, ht, -, -, -, -⟩ :=
    abc_constants_ok (k : ℤ) (by exact_mod_cast hk2) (by exact_mod_cast hk25)
  have habc : abc_table (((XBarR.make data k).subgroup_size : ℕ) : ℤ) =
      some t := ht
  refine ⟨t, ht, rfl, rfl, ?_, ?_, ?_, ?_⟩ <;>
    simp only [XBarR.upper_control_limit_x, XBarR.lower_control_limit_x,
      XBarR.upper_control_limit_r, XBarR.lower_control_limit_r, habc,
      Option.map_some']

theorem XBarR_limits_spec_witness :
    (XBarR.make [0, 1, 2, 3, 4, 5, 6, 7, 8] 3).center_line_x = 4 ∧
    (XBarR.make [0, 1, 2, 3, 4, 5, 6, 7, 8] 3).r = [2, 2, 2] ∧
    ∃ t, abc_table ((3 : ℕ) : ℤ) = some t ∧
      (XBarR.make [0, 1, 2, 3, 4, 5, 6, 7, 8] 3).upper_control_limit_r =
        some (t.D4 * (XBarR.make [0, 1, 2, 3, 4, 5, 6, 7, 8] 3).center_line_r) := by
  obtain ⟨t, ht, h1, h2, h3, h4, h5, h6⟩ :=
    XBarR_limits_spec [0, 1, 2, 3, 4, 5, 6, 7, 8] 3 (by norm_num) (by norm_num)
      (batched_ne_nil _ _ (by norm_num) (by simp))
  refine ⟨?_, ?_, t, ht, h5⟩
  · simp [XBarR.make, XBarR.center_line_x, mean, batched_cons, batched_nil]
    norm_num
  · simp [XBarR.make, batched_cons, batched_nil, rangeOf, listMax, listMin]
    norm_num

/-- C9: for every valid XBar-R input (`k ∈ [2,25]`, at least one
subgroup) the computed limits bracket the center lines on both tracks. -/
theorem XBarR_limit_order (data : List ℚ) (k : ℕ) (hk2 : 2 ≤ k)
    (hk25 : k ≤ 25) (_hne : batched data k ≠ []) :
    ∃ lx ux lr ur,
      (XBarR.make data k).lower_control_limit_x = some lx ∧
      (XBarR.make data k).upper_control_limit_x = some ux ∧
      (XBarR.make data k).lower_control_limit_r = some lr ∧
      (XBarR.make data k).upper_control_limit_r = some ur ∧
      lx ≤ (XBarR.make data k).center_line_x ∧
      (XBarR.make data k).center_line_x ≤ ux ∧
      lr ≤ (XBarR.make data k).center_line_r ∧
      (XBarR.make data k).center_line_r ≤ ur := by
  obtain ⟨t, ht, hA2, hD3, hD31, hD4⟩ :=
    abc_constants_ok (k : ℤ) (by exact_mod_cast hk2) (by exact_mod_cast hk25)
  have habc : abc_table (((XBarR.make data k).subgroup_size : ℕ) : ℤ) =
      some t := ht
  have hr : 0 ≤ (XBarR.make data k).center_line_r := by
    show 0 ≤ mean (XBarR.make data k).r
    apply mean_nonneg
    intro a ha
    have ha2 : a ∈ (batched data k).map rangeOf := ha
    obtain ⟨v, hv, rfl⟩ := List.mem_map.mp ha2
    exact rangeOf_nonneg v
  have hA2r : 0 ≤ t.A2 * (XBarR.make data k).center_line_r :=
    mul_nonneg hA2 hr
  refine ⟨(XBarR.make data k).center_line_x -
            t.A2 * (XBarR.make data k).center_line_r,
          (XBarR.make data k).center_line_x +
            t.A2 * (XBarR.make data k).center_line_r,
          t.D3 * (XBarR.make data k).center_line_r,
          t.D4 * (XBarR.make data k).center_line_r,
          ?_, ?_, ?_, ?_, by linarith, by linarith, ?_, ?_⟩
  · simp only [XBarR.lower_control_limit_x, habc, Option.map_some']
  · simp only [XBarR.upper_control_limit_x, habc, Option.map_some']
  · simp only [XBarR.lower_control_limit_r, habc, Option.map_some']
  · simp only [XBarR.upper_control_limit_r, habc, Option.map_some']
  · calc t.D3 * (XBarR.make data k).center_line_r
        ≤ 1 * (XBarR.make data k).center_line_r :=
          mul_le_mul_of_nonneg_right hD31 hr
      _ = (XBarR.make data k).center_line_r := one_mul _
  · exact le_mul_of_one_le_left hr hD4

theorem XBarR_limit_order_witness :
    ∃ lx ux lr ur,
      (XBarR.make [0, 1, 2, 3, 4, 5, 6, 7, 8] 3).lower_control_limit_x = some lx ∧
      (XBarR.make [0, 1, 2, 3, 4, 5, 6, 7, 8] 3).upper_control_limit_x = some ux ∧
      (XBarR.make [0, 1, 2, 3, 4, 5, 6, 7, 8] 3).lower_control_limit_r = some lr ∧
      (XBarR.make [0, 1, 2, 3, 4, 5, 6, 7, 8] 3).upper_control_limit_r = some ur ∧
      lx ≤ (XBarR.make [0, 1, 2, 3, 4, 5, 6, 7, 8] 3).center_line_x ∧
      (XBarR.make [0, 1, 2, 3, 4, 5, 6, 7, 8] 3).center_line_x ≤ ux ∧
      lr ≤ (XBarR.make [0, 1, 2, 3, 4, 5, 6, 7, 8] 3).center_line_r ∧
      (XBarR.make [0, 1, 2, 3, 4, 5, 6, 7, 8] 3).center_line_r ≤ ur :=
  XBarR_limit_order [0, 1, 2, 3, 4, 5, 6, 7, 8] 3 (by norm_num) (by norm_num)
    (batched_ne_nil _ _ (by norm_num) (by simp))

/-- C3: `rule_4` returns true iff some dense window of 8 consecutive
points lies entirely strictly above or entirely strictly below the
center; with center 0, eight points at −1 trigger it and replacing the
last by +1 breaks the run. -/
theorem rule_4_iff :
    (∀ (w : WECO) (x : List ℚ),
      w.rule_4 x = true ↔
        ∃ j, j + 8 ≤ x.length ∧
          ((∀ d ∈ (x.drop j).take 8, d < w.center) ∨
           (∀ d ∈ (x.drop j).take 8, d > w.center))) ∧
    WECO.rule_4 ⟨0, 1⟩ (List.replicate 8 (-1)) = true ∧
    WECO.rule_4 ⟨0, 1⟩ (List.replicate 7 (-1) ++ [1]) = false := by
  refine ⟨?_, by decide, by decide⟩
  intro w x
  unfold WECO.rule_4
  rw [List.any_eq_true]
  constructor
  · rintro ⟨i, hi, hp⟩
    rw [List.mem_range] at hi
    simp only [Bool.and_eq_true, decide_eq_true_eq, Bool.or_eq_true,
      List.all_eq_true] at hp
    obtain ⟨h7, hw⟩ := hp
    refine ⟨i - 7, by omega, ?_⟩
    rcases hw with hw | hw
    · exact Or.inl hw
    · exact Or.inr hw
  · rintro ⟨j, hj, hside⟩
    refine ⟨j + 7, List.mem_range.mpr (by omega), ?_⟩
    simp only [Bool.and_eq_true, decide_eq_true_eq, Bool.or_eq_true,
      List.all_eq_true]
    have hj7 : j + 7 - 7 = j := by omega
    rw [hj7]
    exact ⟨by omega, hside⟩

/-- C4: the I-MR moving-range series has length `n − 1` with entries
`|x[i] − x[i−1]|`; the individuals center line is `mean(x)`; and the
moving-range limits are `CL_mr ± 3·CL_i/d2` with `d2` from the `k = 2`
table row. -/
theorem IMR_spec (x : List ℚ) (hn : 2 ≤ x.length) :
    (IMR.make x).mr.length = x.length - 1 ∧
    (∀ i, 1 ≤ i → i < x.length →
      (IMR.make x).mr.getD (i - 1) 0 = |x.getD i 0 - x.getD (i - 1) 0|) ∧
    (IMR.make x).center_line_i = mean x ∧
    ∃ t, abc_table 2 = some t ∧
      (IMR.make x).upper_control_limit_mr =
        some ((IMR.make x).center_line_mr +
          3 * (IMR.make x).center_line_i / t.d2) ∧
      (IMR.make x).lower_control_limit_mr =
        some ((IMR.make x).center_line_mr -
          3 * (IMR.make x).center_line_i / t.d2) := by
  refine ⟨?_, ?_, rfl, ?_⟩
  · show ((List.range' 1 (x.length - 1)).map _).length = x.length - 1
    rw [List.length_map, List.length_range']
  · intro i h1 hi
    show ((List.range' 1 (x.length - 1)).map
      (fun j => |x.getD j 0 - x.getD (j - 1) 0|)).getD (i - 1) 0 = _
    have hlt : i - 1 < ((List.range' 1 (x.length - 1)).map
        (fun j => |x.getD j 0 - x.getD (j - 1) 0|)).length := by
      rw [List.length_map, List.length_range']
      omega
    rw [List.getD_eq_getElem _ _ hlt, List.getElem_map, List.getElem_range']
    have he : 1 + 1 * (i - 1) = i := by omega
    rw [he]
  · exact ⟨_, rfl, rfl, rfl⟩

theorem IMR_spec_witness :
    (IMR.make [1, 2, 3]).mr = [1, 1] ∧
    (IMR.make [1, 2, 3]).center_line_i = 2 ∧
    (IMR.make [1, 2, 3]).mr.length = 2 := by
  have h := IMR_spec [1, 2, 3] (by norm_num)
  have e1 : (IMR.make [1, 2, 3]).mr = [|(2 : ℚ) - 1|, |(3 : ℚ) - 2|] := rfl
  refine ⟨by rw [e1]; norm_num, ?_, by rw [h.1]; rfl⟩
  rw [h.2.2.1]
  norm_num [mean]

/-- C10: each WECO rule returns false, with no error, on any series
shorter than its window width. -/
theorem rules_short_series (w : WECO) (x : List ℚ) :
    (x = [] → w.rule_1 x = false) ∧
    (x.length < 2 → w.rule_2 x = false) ∧
    (x.length < 4 → w.rule_3 x = false) ∧
    (x.length < 8 → w.rule_4 x = false) := by
  refine ⟨?_, ?_, ?_, ?_⟩
  · intro h
    subst h
    rfl
  · intro h
    unfold WECO.rule_2
    rw [List.any_eq_false]
    intro i hi
    rw [List.mem_range] at hi
    have h1 : ¬ (1 ≤ i) := by omega
    simp [h1]
  · intro h
    unfold WECO.rule_3
    rw [List.any_eq_false]
    intro i hi
    rw [List.mem_range] at hi
    have h1 : ¬ (3 ≤ i) := by omega
    simp [h1]
  · intro h
    unfold WECO.rule_4
    rw [List.any_eq_false]
    intro i hi
    rw [List.mem_range] at hi
    have h1 : ¬ (7 ≤ i) := by omega
    simp [h1]

theorem rules_short_series_witness :
    WECO.rule_1 ⟨0, 1⟩ [] = false ∧
    WECO.rule_2 ⟨0, 1⟩ [5] = false ∧
    WECO.rule_3 ⟨0, 1⟩ [5, 5, 5] = false ∧
    WECO.rule_4 ⟨0, 1⟩ [5, 5, 5, 5, 5, 5, 5] = false :=
  ⟨(rules_short_series ⟨0, 1⟩ []).1 rfl,
   (rules_short_series ⟨0, 1⟩ [5]).2.1 (by norm_num),
   (rules_short_series ⟨0, 1⟩ [5, 5, 5]).2.2.1 (by norm_num),
   (rules_short_series ⟨0, 1⟩ [5, 5, 5, 5, 5, 5, 5]).2.2.2 (by norm_num)⟩

/-- C5: at the spec's own example inputs the P chart cannot deliver the
claimed behaviour: with a scalar sample size both limit queries iterate
over an `int` and raise `TypeError` (no scalar limits are produced), for
every square-root semantics; and with per-point sizes of a different
length than the defects, `p` silently truncates via `zip` instead of
raising `ShapeMismatch`. -/
theorem P_scalar_limits_fail :
    (∀ sqrtF : ℚ → ℚ,
      PChart.upper_control_limit sqrtF
        ⟨[3, 5, 2, 4, 6, 1, 3, 2, 4, 3], .scalar 100⟩ = none ∧
      PChart.lower_control_limit sqrtF
        ⟨[3, 5, 2, 4, 6, 1, 3, 2, 4, 3], .scalar 100⟩ = none) ∧
    (PChart.p ⟨[1, 2, 3], .perPoint [10, 10]⟩).length = 2 := by
  refine ⟨fun _ => ⟨rfl, rfl⟩, rfl⟩

/-- C6: the table lookup succeeds exactly on `k ∈ [2,25]`, and each row
answers attribute access for the seven declared field names — but `C4`
is not one of them, so the `.C4` reads in `XBarS.cp`/`XBarS.cpk` hit
`AttributeError`. -/
theorem abc_table_no_C4 :
    "C4" ∉ field_names ∧
    (∀ t : abc, t.attr "C4" = none) ∧
    (∀ k : ℤ, 2 ≤ k → k ≤ 25 →
      ∃ t, abc_table k = some t ∧
        ∀ name ∈ field_names, (t.attr name).isSome = true) ∧
    (∀ k : ℤ, k < 2 ∨ 25 < k → abc_table k = none) := by
  refine ⟨by decide, fun t => rfl, ?_, abc_table_none⟩
  intro k h2 h25
  interval_cases k <;> exact ⟨_, rfl, by decide⟩

theorem abc_table_no_C4_witness :
    ∃ t, abc_table 9 = some t ∧ t.attr "C4" = none ∧
      (t.attr "d2").isSome = true ∧ abc_table 26 = none := by
  obtain ⟨t, ht, hall⟩ := abc_table_no_C4.2.2.1 9 (by norm_num) (by norm_num)
  exact ⟨t, ht, abc_table_no_C4.2.1 t, hall "d2" (by decide),
    abc_table_no_C4.2.2.2 26 (by norm_num)⟩

/-- C7: neither capability ratio can return the claimed minimum:
`XBarR.cpk` subtracts the list `self.x_bar` from a float (`TypeError`)
and `XBarS.cpk` first reads the nonexistent `C4` column
(`AttributeError`); both queries fail on every calculator, in particular
on the concrete chart built from `[0..9]` with `k = 5`. -/
theorem cpk_never_returns :
    (∀ (c : XBarR) (lsl usl : ℚ), c.cpk lsl usl = none) ∧
    (∀ (c : XBarS) (lsl usl : ℚ), c.cpk lsl usl = none) ∧
    (XBarR.make [0, 1, 2, 3, 4, 5, 6, 7, 8, 9] 5).cpk 0 10 = none := by
  have hR : ∀ (c : XBarR) (lsl usl : ℚ), c.cpk lsl usl = none := by
    intro c lsl usl
    unfold XBarR.cpk
    cases habc : abc_table ((c.subgroup_size : ℕ) : ℤ) with
    | none => rfl
    | some t => rfl
  refine ⟨hR, ?_, hR _ 0 10⟩
  intro c lsl usl
  unfold XBarS.cpk
  cases habc : abc_table ((c.subgroup_size : ℕ) : ℤ) with
  | none => rfl
  | some t => rfl

/-- C8: the draft partitioner in `base.py` rejects `k < 1` with
`ValueError("n is less than 1")`, but the operative partitioner in
`chart.py` (the one every chart calculator calls) silently yields zero
subgroups at `k = 0` instead of failing. -/
theorem partition_k_lt_one :
    (∀ (l : List ℚ) (n : ℤ), n < 1 →
      base_batched l n = .error "n is less than 1") ∧
    (∀ l : List ℚ, batched l 0 = []) ∧
    batched ([1, 2, 3] : List ℚ) 0 = [] := by
  refine ⟨?_, fun l => batched_zero l, batched_zero _⟩
  intro l n hn
  unfold base_batched
  rw [if_pos hn]

theorem partition_k_lt_one_witness :
    base_batched [1, 2, 3] 0 = .error "n is less than 1" ∧
    batched ([1, 2, 3] : List ℚ) 0 = [] :=
  ⟨partition_k_lt_one.1 [1, 2, 3] 0 (by norm_num), partition_k_lt_one.2.2⟩

end EasySPC
